import Mathlib

/-!
Shallow embedding of `generate_posts.py` (the AutoByte Reviews static-site
generator): the slugifier, the best-seller fetcher, the page renderer, and the
site builder over an explicit path-to-content filesystem map, together with
theorems settling the specification claims about them.
-/

/-! ### Slugifier: `slugify` -/

/-- The character class `[a-z0-9]` of the substitution regex, by code point. -/
def isSlugChar (c : Char) : Bool :=
  (97 ≤ c.toNat && c.toNat ≤ 122) || (48 ≤ c.toNat && c.toNat ≤ 57)

/-- One pass of `re.sub(r'[^a-z0-9]+', '-', text)`.  The flag records whether
the scan is inside a run of characters outside `[a-z0-9]` whose single
replacement dash has already been emitted. -/
def collapseAux : Bool → List Char → List Char
  | _, [] => []
  | inRun, c :: cs =>
    if isSlugChar c then c :: collapseAux false cs
    else if inRun then collapseAux true cs
    else '-' :: collapseAux true cs

/-- The dash test used by `str.strip('-')`. -/
def isDash (c : Char) : Bool := c == '-'

/-- Python `str.strip('-')`: remove the dashes at both ends. -/
def pyStrip (l : List Char) : List Char :=
  ((l.dropWhile isDash).reverse.dropWhile isDash).reverse

/-- `slugify` from `generate_posts.py`: lower-case the text, collapse each run
of characters outside `[a-z0-9]` into a single dash, and strip dashes at both
ends.  (`str.lower` is modelled by `Char.toLower`, the basic-latin case
mapping.) -/
def slugify (s : String) : String :=
  String.mk (pyStrip (collapseAux false (s.data.map Char.toLower)))

/-- The regex substitution as the specification words it: every maximal run of
characters outside `[a-z0-9]` is replaced by one dash (emit the dash on the
first character of the run and resume after the run). -/
def collapseRuns : List Char → List Char
  | [] => []
  | c :: cs =>
    if isSlugChar c then c :: collapseRuns cs
    else '-' :: collapseRuns (cs.dropWhile (fun d => !isSlugChar d))
termination_by l => l.length
decreasing_by
  all_goals apply Nat.lt_succ_of_le
  · exact Nat.le_refl _
  · exact List.Sublist.length_le (List.dropWhile_sublist _)

/-! ### Fetcher: `fetch_best_sellers` -/

/-- The failures the fetch path can produce: the import guard and the
network/status failure of the single GET. -/
inductive FetchError where
  | dependencyError
  | transportError
deriving DecidableEq, Repr

/-- The three CSS selectors, tried in fixed priority order. -/
def selectors : List String :=
  ["div.p13n-sc-uncoverable-faceout a.a-link-normal div.p13n-sc-truncate",
   "span.zg-text-center-align div.a-section a.a-link-normal",
   "span.aok-inline-block a.a-link-normal"]

/-- The inner loop over the elements matched by one selector: append each
non-empty text not collected yet, and break as soon as the quota is reached
(the break test runs after every element, appended or not). -/
def collectElems (maxItems : Nat) : List String → List String → List String
  | names, [] => names
  | names, t :: ts =>
    let names2 := if t ≠ "" ∧ t ∉ names then names ++ [t] else names
    if maxItems ≤ names2.length then names2 else collectElems maxItems names2 ts

/-- The outer loop over the selector match lists: try the next selector only
when the quota is not yet filled. -/
def selectLoop (maxItems : Nat) : List String → List (List String) → List String
  | names, [] => names
  | names, es :: rest =>
    let names2 := collectElems maxItems names es
    if maxItems ≤ names2.length then names2 else selectLoop maxItems names2 rest

/-- The selector-extraction phase of `fetch_best_sellers`.  A parsed document
is modelled as the map sending a CSS selector to the stripped visible texts of
its matches, in document order. -/
def selectNames (doc : String → List String) (maxItems : Nat) : List String :=
  selectLoop maxItems [] (selectors.map doc)

/-- Outcome of the single HTTP GET: whether `raise_for_status` passes, and the
parsed document. -/
structure HttpResult where
  ok : Bool
  doc : String → List String

/-- `fetch_best_sellers` with its effects explicit: the import guard runs
first, then exactly one network request, the status check, and the selector
extraction.  The second component counts the network requests issued. -/
def fetch_best_sellers (depsAvailable : Bool) (net : HttpResult) (maxItems : Nat) :
    Except FetchError (List String) × Nat :=
  if !depsAvailable then (Except.error FetchError.dependencyError, 0)
  else if !net.ok then (Except.error FetchError.transportError, 1)
  else (Except.ok (selectNames net.doc maxItems), 1)

/-! ### Page renderer: `generate_post_html`

The template is split into the literal chunks between the interpolation
holes of the Python f-string. -/

def gph_a : String := "<!DOCTYPE html>\n<html>\n<head>\n  <meta charset=\"utf-8\">\n  <title>"

def gph_b : String := "</title>\n  <link rel=\"stylesheet\" href=\"styles.css\">\n</head>\n<body>\n  "

def gph_c : String := "\n  <p><em>"

def gph_d : String := "</em></p>\n  <h2>Overview</h2>\n  <p>"

def gph_e : String := " is trending on Amazon. This product has captured consumer interest because of its high quality and innovative features. In this review, we\x27ll explore why it\x27s so popular.</p>\n  <h2>Key Features</h2>\n  <ul>\n    <li>High quality materials</li>\n    <li>Excellent performance</li>\n    <li>Great value for the price</li>\n  </ul>\n  <h2>Conclusion</h2>\n  <p>If you\x27re in the market for something new, "

def gph_f : String := " is worth considering. It\x27s one of the top-selling items today.</p>\n  <p><a href=\""

def gph_g : String := "\">Buy on Amazon</a></p>\n  <p><a href=\"index.html\">Back to Home</a></p>\n</body>\n</html>"

/-- `generate_post_html`: a pure rendering of the review page for one product.
`keywords` joins the slug's hyphen-separated tokens with `+`. -/
def generate_post_html (title date_str product_name slug : String) : String :=
  let keywords := String.intercalate ("+") (slug.splitOn ("-"))
  gph_a ++ title ++ gph_b ++ "<h1>" ++ title ++ "</h1>" ++ gph_c ++ date_str ++ gph_d
    ++ product_name ++ gph_e ++ product_name ++ gph_f
    ++ ("https://www.amazon.com/s?k=" ++ keywords ++ "&tag=YOUR_AFFILIATE_ID")
    ++ gph_g

/-! ### Site builder: `build_site`

The output directory is modelled as a map from path to file content; directory
creation (`os.makedirs`, which never touches file contents) has no effect on
the map and is omitted. -/

/-- A filesystem: each path holds either nothing or a file's full content. -/
abbrev FS := String → Option String

/-- Writing a file: replaces whatever the path held. -/
def FS.write (fs : FS) (p c : String) : FS :=
  fun q => if q = p then some c else fs q

def style_path : String := "docs/styles.css"

def index_path : String := "docs/index.html"

/-- The fixed stylesheet written on first run. -/
def style_content : String :=
  "body \x7bfont-family: Arial, sans-serif; margin: 2rem; max-width: 800px;\x7d\n h1 \x7bcolor: #333;\x7d\n a \x7bcolor: #0366d6;\x7d\n"

/-- `os.path.join('docs', slug + ".html")`. -/
def page_path (slug : String) : String := "docs/" ++ slug ++ ".html"

def post_title (product : String) : String := product ++ " Review"

/-- The guarded stylesheet write: only when no file exists at its path. -/
def writeStyle (fs : FS) : FS :=
  if (fs style_path).isSome then fs else FS.write fs style_path style_content

/-- One iteration of the per-product loop of `build_site`: skip the write when
the page file already exists.  The second component logs the product-page
write events `(path, content)` in order. -/
def postStep (today : String) (st : FS × List (String × String)) (product : String) :
    FS × List (String × String) :=
  let slug := slugify product
  let filepath := page_path slug
  if (st.1 filepath).isSome then st
  else (FS.write st.1 filepath (generate_post_html (post_title product) today product slug),
        st.2 ++ [(filepath, generate_post_html (post_title product) today product slug)])

/-- The per-product loop of `build_site`, with its write log. -/
def buildPostsLog (today : String) (products : List String) (fs : FS) :
    FS × List (String × String) :=
  products.foldl (postStep today) (fs, [])

/-- The `posts_info` list: one `(product, slug, date)` triple per product,
recorded whether or not the page file was freshly written. -/
def posts_info (today : String) (products : List String) : List (String × String × String) :=
  products.map (fun p => (p, slugify p, today))

/-- One `<li>` entry of the index page. -/
def index_line : String × String × String → String
  | (product, slug, date_str) =>
    "<li><a href=\"" ++ slug ++ ".html\">" ++ product ++ " Review</a> - " ++ date_str ++ "</li>\n"

def index_header : String := "<!DOCTYPE html>\n<html>\n<head>\n<meta charset=\"utf-8\">\n<title>AutoByte Reviews</title>\n<link rel=\"stylesheet\" href=\"styles.css\">\n</head>\n<body>\n<h1>AutoByte Reviews</h1>\n<p>Welcome to AutoByte Reviews. Here you will find AI-generated reviews of trending products.</p>\n<ul>\n"

def index_footer : String := "</ul>\n</body>\n</html>"

/-- The index page content: header, then the sequentially appended entries,
then the footer — mirroring the consecutive `f.write` calls. -/
def index_content (today : String) (products : List String) : String :=
  index_header ++ (posts_info today products).foldl (fun acc t => acc ++ index_line t) "" ++ index_footer

/-- `build_site`: guarded stylesheet write, guarded per-product page writes,
then the unconditional index write. -/
def build_site (today : String) (products : List String) (fs : FS) : FS :=
  FS.write (buildPostsLog today products (writeStyle fs)).1 index_path
    (index_content today products)

/-- The product-page write events of a `build_site` run, in order. -/
def build_site_writes (today : String) (products : List String) (fs : FS) :
    List (String × String) :=
  (buildPostsLog today products (writeStyle fs)).2

/-! ### Entry point: `main` -/

/-- The fixed fallback list substituted on any fetch exception. -/
def sample_products : List String :=
  ["Sample Product A", "Sample Product B", "Sample Product C"]

/-- The `try/except` around the fetch: any error whatsoever (`ε` is arbitrary)
is replaced by the sample list. -/
def main_names {ε : Type} (fetched : Except ε (List String)) : List String :=
  match fetched with
  | Except.ok names => names
  | Except.error _ => sample_products

/-- `main`: build the site from whichever list the fetch attempt produced. -/
def main_run {ε : Type} (fetched : Except ε (List String)) (today : String) (fs : FS) : FS :=
  build_site today (main_names fetched) fs

/-! ### Helper lemmas: filesystem and builder -/

theorem FS.write_self (fs : FS) (p c : String) : FS.write fs p c p = some c := by
  simp [FS.write]

theorem FS.write_ne (fs : FS) {p q : String} (c : String) (h : q ≠ p) :
    FS.write fs p c q = fs q := by
  simp [FS.write, h]

theorem FS.write_write (fs : FS) (p c c2 : String) :
    FS.write (FS.write fs p c) p c2 = FS.write fs p c2 := by
  funext q
  by_cases h : q = p <;> simp [FS.write, h]

theorem postStep_skip {today : String} {st : FS × List (String × String)} {product : String}
    (h : (st.1 (page_path (slugify product))).isSome) :
    postStep today st product = st := by
  unfold postStep; simp [h]

theorem postStep_write {today : String} {st : FS × List (String × String)} {product : String}
    (h : ¬ (st.1 (page_path (slugify product))).isSome) :
    postStep today st product
      = (FS.write st.1 (page_path (slugify product))
           (generate_post_html (post_title product) today product (slugify product)),
         st.2 ++ [(page_path (slugify product),
           generate_post_html (post_title product) today product (slugify product))]) := by
  unfold postStep; simp [h]

theorem foldl_postStep_pres (today : String) :
    ∀ (l : List String) (st : FS × List (String × String)) (q c : String),
      st.1 q = some c → (l.foldl (postStep today) st).1 q = some c := by
  intro l
  induction l with
  | nil => intro st q c h; exact h
  | cons a l ih =>
    intro st q c h
    simp only [List.foldl_cons]
    by_cases hex : (st.1 (page_path (slugify a))).isSome
    · rw [postStep_skip hex]; exact ih st q c h
    · rw [postStep_write hex]
      apply ih
      have hq : q ≠ page_path (slugify a) := by
        intro he; rw [he] at h; exact hex (by simp [h])
      show FS.write st.1 _ _ q = some c
      rw [FS.write_ne _ _ hq]; exact h

theorem foldl_postStep_pres_isSome (today : String) (l : List String)
    (st : FS × List (String × String)) (q : String)
    (h : (st.1 q).isSome) : ((l.foldl (postStep today) st).1 q).isSome := by
  obtain ⟨c, hc⟩ := Option.isSome_iff_exists.mp h
  rw [foldl_postStep_pres today l st q c hc]; rfl

theorem foldl_postStep_page_isSome (today : String) :
    ∀ (l : List String) (st : FS × List (String × String)) (p : String), p ∈ l →
      ((l.foldl (postStep today) st).1 (page_path (slugify p))).isSome := by
  intro l
  induction l with
  | nil => intro st p hp; cases hp
  | cons a l ih =>
    intro st p hp
    rcases List.mem_cons.mp hp with rfl | hp
    · simp only [List.foldl_cons]
      apply foldl_postStep_pres_isSome
      by_cases hex : (st.1 (page_path (slugify p))).isSome
      · rw [postStep_skip hex]; exact hex
      · rw [postStep_write hex]
        show (FS.write st.1 _ _ (page_path (slugify p))).isSome
        rw [FS.write_self]; rfl
    · simp only [List.foldl_cons]
      exact ih _ p hp

theorem foldl_postStep_id (today : String) :
    ∀ (l : List String) (st : FS × List (String × String)),
      (∀ p ∈ l, (st.1 (page_path (slugify p))).isSome) →
      l.foldl (postStep today) st = st := by
  intro l
  induction l with
  | nil => intro st _; rfl
  | cons a l ih =>
    intro st h
    simp only [List.foldl_cons]
    rw [postStep_skip (h a (List.mem_cons_self a l))]
    exact ih st (fun p hp => h p (List.mem_cons_of_mem a hp))

theorem foldl_postStep_no_more_writes (today pt : String) :
    ∀ (l : List String) (st : FS × List (String × String)), (st.1 pt).isSome →
      ((l.foldl (postStep today) st).2.filter (fun w => w.1 == pt))
        = st.2.filter (fun w => w.1 == pt) := by
  intro l
  induction l with
  | nil => intro st _; rfl
  | cons a l ih =>
    intro st hs
    simp only [List.foldl_cons]
    by_cases hex : (st.1 (page_path (slugify a))).isSome
    · rw [postStep_skip hex]; exact ih st hs
    · have hne : page_path (slugify a) ≠ pt := fun he => hex (he ▸ hs)
      rw [postStep_write hex]
      rw [ih _ (by show (FS.write st.1 _ _ pt).isSome
                   rw [FS.write_ne _ _ (Ne.symm hne)]; exact hs)]
      have hbeq : ((page_path (slugify a) == pt)) = false := beq_eq_false_iff_ne.mpr hne
      simp [List.filter_append, hbeq]

theorem string_foldl_append (l : List String) :
    ∀ acc : String, l.foldl (· ++ ·) acc = acc ++ l.foldl (· ++ ·) "" := by
  induction l with
  | nil => intro acc; simp
  | cons a l ih =>
    intro acc
    simp only [List.foldl_cons]
    rw [ih ("" ++ a), ih (acc ++ a), String.empty_append, String.append_assoc]

theorem string_join_cons (a : String) (l : List String) :
    String.join (a :: l) = a ++ String.join l := by
  show (a :: l).foldl (· ++ ·) "" = a ++ l.foldl (· ++ ·) ""
  simp only [List.foldl_cons]
  rw [string_foldl_append l ("" ++ a), String.empty_append]

theorem foldl_append_eq_join {α : Type} (f : α → String) (l : List α) :
    ∀ acc : String, l.foldl (fun a x => a ++ f x) acc = acc ++ String.join (l.map f) := by
  induction l with
  | nil => intro acc; simp [String.join]
  | cons a l ih =>
    intro acc
    simp only [List.foldl_cons, List.map_cons]
    rw [ih, string_join_cons, ← String.append_assoc]

theorem index_content_eq (today : String) (products : List String) :
    index_content today products
      = index_header ++ String.join ((posts_info today products).map index_line)
          ++ index_footer := by
  unfold index_content
  rw [foldl_append_eq_join, String.empty_append]

theorem build_site_index_aux (today : String) (products : List String) (fs : FS) :
    build_site today products fs index_path
      = some (index_header ++ String.join ((posts_info today products).map index_line)
          ++ index_footer) := by
  unfold build_site
  rw [FS.write_self, index_content_eq]

theorem page_path_last (s : String) : (page_path s).data.getLast? = some ('l') := by
  show (("docs/" ++ s ++ ".html") : String).data.getLast? = some ('l')
  rw [String.data_append, List.getLast?_append]
  rfl

theorem page_path_ne_style (s : String) : page_path s ≠ style_path := by
  intro h
  have h1 := page_path_last s
  rw [h] at h1
  exact absurd h1 (by decide)

/-! ### Claims about the site builder and the entry point -/

/-- Claim C1, counterexample: the claim fails as stated.  With product list
`["index"]` the product's page path is `docs/index.html`; a pre-existing file
there is a pre-existing product page file, yet the unconditional index write
overwrites it, so it does not keep its prior content. -/
theorem build_site_clobbers_index_slug_page :
    build_site ("2026-01-01") (["index"])
        (FS.write (fun _ => none) ("docs/index.html") ("custom")) ("docs/index.html")
      ≠ some ("custom") := by decide

/-- Claim C1 (amended): `build_site` writes `docs/styles.css` only when absent
and `docs/<slug>.html` only when absent, and every pre-existing file at a path
other than `docs/index.html` keeps its prior content byte-for-byte; the one
exception forced by the counterexample is a product whose slug is `index`,
whose page coincides with the unconditionally rewritten index. -/
theorem build_site_preserves_existing_files (today : String) (products : List String) (fs : FS) :
    (∀ p c, p ≠ index_path → fs p = some c → build_site today products fs p = some c)
    ∧ (fs style_path = none → build_site today products fs style_path = some style_content) := by
  constructor
  · intro p c hip hc
    unfold build_site
    rw [FS.write_ne _ _ hip]
    unfold buildPostsLog
    apply foldl_postStep_pres
    show writeStyle fs p = some c
    unfold writeStyle
    by_cases hs : (fs style_path).isSome
    · simp only [hs, if_pos]; exact hc
    · simp only [hs, if_neg, Bool.false_eq_true, not_false_iff]
      by_cases hps : p = style_path
      · rw [hps] at hc; rw [hc] at hs; simp at hs
      · rw [FS.write_ne _ _ hps]; exact hc
  · intro hs
    unfold build_site
    rw [FS.write_ne _ _ (by decide : style_path ≠ index_path)]
    unfold buildPostsLog
    apply foldl_postStep_pres
    show writeStyle fs style_path = some style_content
    unfold writeStyle
    simp only [hs, Option.isSome_none, Bool.false_eq_true, if_neg, not_false_iff]
    exact FS.write_self fs style_path style_content

/-- Witness for C1: a pre-existing `docs/widget-x.html` with custom content
survives a run over `["Widget X"]` unchanged. -/
theorem build_site_preserves_existing_files_witness :
    build_site ("2026-10-12") (["Widget X"])
        (FS.write (fun _ => none) ("docs/widget-x.html") ("CUSTOM")) ("docs/widget-x.html")
      = some ("CUSTOM") :=
  (build_site_preserves_existing_files ("2026-10-12") (["Widget X"])
      (FS.write (fun _ => none) ("docs/widget-x.html") ("CUSTOM"))).1
    ("docs/widget-x.html") ("CUSTOM") (by decide) (by decide)

/-- Claim C2: on any fetch error whatsoever (the error type `ε` is arbitrary),
`main` substitutes exactly the fixed three-element sample list and calls
`build_site` with it; nothing propagates. -/
theorem main_catches_all_fetch_errors {ε : Type} (e : ε) (today : String) (fs : FS) :
    main_names (Except.error e : Except ε (List String)) = sample_products
    ∧ sample_products = ["Sample Product A", "Sample Product B", "Sample Product C"]
    ∧ main_run (Except.error e) today fs = build_site today sample_products fs :=
  ⟨rfl, rfl, rfl⟩

/-- Claim C5: every run overwrites `docs/index.html` with the header, one
entry per input product in input order (a link to `<slug>.html` labeled
`<product> Review` followed by the run's date), and the footer — whatever the
prior filesystem held, including when product pages pre-existed. -/
theorem build_site_always_rewrites_index (today : String) (products : List String) (fs : FS) :
    build_site today products fs index_path
      = some (index_header ++ String.join ((posts_info today products).map index_line)
          ++ index_footer) :=
  build_site_index_aux today products fs

/-- Claim C6: a second `build_site` run with the same product list on the same
date leaves the whole filesystem — every product page and the index — exactly
as the first run left it. -/
theorem build_site_idempotent (today : String) (products : List String) (fs : FS) :
    build_site today products (build_site today products fs) = build_site today products fs := by
  have h1 : writeStyle (build_site today products fs) = build_site today products fs := by
    unfold writeStyle
    have hs : ((build_site today products fs) style_path).isSome := by
      unfold build_site
      rw [FS.write_ne _ _ (by decide : style_path ≠ index_path)]
      unfold buildPostsLog
      apply foldl_postStep_pres_isSome
      show (writeStyle fs style_path).isSome
      unfold writeStyle
      by_cases hfs : (fs style_path).isSome
      · simp [hfs]
      · simp only [hfs, Bool.false_eq_true, if_neg, not_false_iff]
        rw [FS.write_self]; rfl
    simp [hs]
  have h2 : ∀ p ∈ products, ((build_site today products fs) (page_path (slugify p))).isSome := by
    intro p hp
    unfold build_site
    by_cases h : page_path (slugify p) = index_path
    · rw [h, FS.write_self]; rfl
    · rw [FS.write_ne _ _ h]
      unfold buildPostsLog
      exact foldl_postStep_page_isSome today products _ p hp
  calc build_site today products (build_site today products fs)
      = FS.write (buildPostsLog today products
            (writeStyle (build_site today products fs))).1 index_path
          (index_content today products) := rfl
    _ = FS.write (build_site today products fs) index_path (index_content today products) := by
        rw [h1]
        unfold buildPostsLog
        rw [foldl_postStep_id today products _ h2]
    _ = build_site today products fs := by
        rw [show build_site today products fs
            = FS.write (buildPostsLog today products (writeStyle fs)).1 index_path
                (index_content today products) from rfl,
          FS.write_write]

/-- Claim C10: when the head product `p1` and some later product `p2` share a
slug and no file exists at that slug's path, the run performs exactly one page
write at that path — `p1`'s rendering — while the index still lists one entry
for each of `p1` and `p2`, both linking to the same `<slug>.html`. -/
theorem duplicate_slug_single_write (today : String) (fs : FS) (p1 p2 : String)
    (rest : List String) (hmem : p2 ∈ rest) (hslug : slugify p2 = slugify p1)
    (habs : fs (page_path (slugify p1)) = none) :
    (build_site_writes today (p1 :: rest) fs).filter
        (fun w => w.1 == page_path (slugify p1))
      = [(page_path (slugify p1),
          generate_post_html (post_title p1) today p1 (slugify p1))]
    ∧ index_line (p1, slugify p1, today) ∈ (posts_info today (p1 :: rest)).map index_line
    ∧ index_line (p2, slugify p1, today) ∈ (posts_info today (p1 :: rest)).map index_line
    ∧ build_site today (p1 :: rest) fs index_path
      = some (index_header ++ String.join ((posts_info today (p1 :: rest)).map index_line)
          ++ index_footer) := by
  refine ⟨?_, ?_, ?_, build_site_index_aux today (p1 :: rest) fs⟩
  · have h1 : writeStyle fs (page_path (slugify p1)) = none := by
      unfold writeStyle
      by_cases hs : (fs style_path).isSome
      · simp only [hs, if_pos]; exact habs
      · simp only [hs, Bool.false_eq_true, if_neg, not_false_iff]
        rw [FS.write_ne _ _ (page_path_ne_style (slugify p1))]
        exact habs
    unfold build_site_writes buildPostsLog
    simp only [List.foldl_cons]
    rw [postStep_write (by simp [h1])]
    rw [foldl_postStep_no_more_writes today (page_path (slugify p1)) rest _
      (by show (FS.write (writeStyle fs) _ _ (page_path (slugify p1))).isSome
          rw [FS.write_self]; rfl)]
    simp
  · exact List.mem_map_of_mem index_line
      (by show (p1, slugify p1, today) ∈ posts_info today (p1 :: rest)
          unfold posts_info
          exact List.mem_map_of_mem _ (List.mem_cons_self p1 rest))
  · have hmem2 : (p2, slugify p2, today) ∈ posts_info today (p1 :: rest) := by
      unfold posts_info
      exact List.mem_map_of_mem _ (List.mem_cons_of_mem p1 hmem)
    rw [hslug] at hmem2
    exact List.mem_map_of_mem index_line hmem2

/-- Witness for C10: products `"A b"` and `"A B"` both slug to `a-b`; on an
empty filesystem only the first one's page is written. -/
theorem duplicate_slug_single_write_witness :
    (build_site_writes ("2026-10-12") (["A b", "A B"]) (fun _ => none)).filter
        (fun w => w.1 == page_path (slugify ("A b")))
      = [(page_path (slugify ("A b")),
          generate_post_html (post_title ("A b")) ("2026-10-12") ("A b") (slugify ("A b")))]
    ∧ index_line (("A b"), slugify ("A b"), ("2026-10-12"))
        ∈ (posts_info ("2026-10-12") (["A b", "A B"])).map index_line
    ∧ index_line (("A B"), slugify ("A b"), ("2026-10-12"))
        ∈ (posts_info ("2026-10-12") (["A b", "A B"])).map index_line
    ∧ build_site ("2026-10-12") (["A b", "A B"]) (fun _ => none) index_path
      = some (index_header
          ++ String.join ((posts_info ("2026-10-12") (["A b", "A B"])).map index_line)
          ++ index_footer) :=
  duplicate_slug_single_write ("2026-10-12") (fun _ => none) ("A b") ("A B") (["A B"])
    (by decide) (by decide) (by decide)

/-! ### Helper lemmas: fetcher loops -/
theorem collectElems_length (m : Nat) :
    ∀ (es names : List String), names.length < m → (collectElems m names es).length ≤ m := by
  intro es
  induction es with
  | nil => intro names h; exact Nat.le_of_lt h
  | cons t ts ih =>
    intro names h
    simp only [collectElems]
    by_cases hg : t ≠ "" ∧ t ∉ names
    · rw [if_pos hg]
      by_cases hq : m ≤ (names ++ [t]).length
      · rw [if_pos hq]
        simp only [List.length_append, List.length_cons, List.length_nil]
        omega
      · rw [if_neg hq]; exact ih _ (Nat.lt_of_not_le hq)
    · rw [if_neg hg]
      by_cases hq : m ≤ names.length
      · rw [if_pos hq]; exact Nat.le_of_lt h
      · rw [if_neg hq]; exact ih _ (Nat.lt_of_not_le hq)

theorem collectElems_nodup (m : Nat) :
    ∀ (es names : List String), names.Nodup → (collectElems m names es).Nodup := by
  intro es
  induction es with
  | nil => intro names h; exact h
  | cons t ts ih =>
    intro names h
    simp only [collectElems]
    by_cases hg : t ≠ "" ∧ t ∉ names
    · rw [if_pos hg]
      have h2 : (names ++ [t]).Nodup :=
        List.Nodup.append h (List.nodup_singleton t) (List.disjoint_singleton.2 hg.2)
      by_cases hq : m ≤ (names ++ [t]).length
      · rw [if_pos hq]; exact h2
      · rw [if_neg hq]; exact ih _ h2
    · rw [if_neg hg]
      by_cases hq : m ≤ names.length
      · rw [if_pos hq]; exact h
      · rw [if_neg hq]; exact ih _ h

theorem collectElems_ne_empty (m : Nat) :
    ∀ (es names : List String), (∀ s ∈ names, s ≠ "") →
      ∀ s ∈ collectElems m names es, s ≠ "" := by
  intro es
  induction es with
  | nil => intro names h; exact h
  | cons t ts ih =>
    intro names h
    simp only [collectElems]
    by_cases hg : t ≠ "" ∧ t ∉ names
    · rw [if_pos hg]
      have h2 : ∀ s ∈ names ++ [t], s ≠ "" := by
        intro s hs
        rcases List.mem_append.mp hs with hs | hs
        · exact h s hs
        · rw [List.mem_singleton.mp hs]; exact hg.1
      by_cases hq : m ≤ (names ++ [t]).length
      · rw [if_pos hq]; exact h2
      · rw [if_neg hq]; exact ih _ h2
    · rw [if_neg hg]
      by_cases hq : m ≤ names.length
      · rw [if_pos hq]; exact h
      · rw [if_neg hq]; exact ih _ h

theorem collectElems_append (m : Nat) (l2 : List String) :
    ∀ (es names : List String), names.length < m →
      collectElems m names (es ++ l2)
        = if m ≤ (collectElems m names es).length then collectElems m names es
          else collectElems m (collectElems m names es) l2 := by
  intro es
  induction es with
  | nil =>
    intro names h
    simp only [List.nil_append, collectElems]
    rw [if_neg (Nat.not_le_of_lt h)]
  | cons t ts ih =>
    intro names h
    have hcons : collectElems m names (t :: ts)
        = if m ≤ (if t ≠ "" ∧ t ∉ names then names ++ [t] else names).length
          then (if t ≠ "" ∧ t ∉ names then names ++ [t] else names)
          else collectElems m (if t ≠ "" ∧ t ∉ names then names ++ [t] else names) ts := by
      simp only [collectElems]
    have hconsL : collectElems m names (t :: (ts ++ l2))
        = if m ≤ (if t ≠ "" ∧ t ∉ names then names ++ [t] else names).length
          then (if t ≠ "" ∧ t ∉ names then names ++ [t] else names)
          else collectElems m (if t ≠ "" ∧ t ∉ names then names ++ [t] else names) (ts ++ l2) := by
      simp only [collectElems]
    rw [List.cons_append, hconsL, hcons]
    by_cases hq : m ≤ (if t ≠ "" ∧ t ∉ names then names ++ [t] else names).length
    · rw [if_pos hq, if_pos hq, if_pos hq]
    · rw [if_neg hq, if_neg hq]
      exact ih _ (Nat.lt_of_not_le hq)

theorem selectLoop_eq_flatten (m : Nat) :
    ∀ (ess : List (List String)) (names : List String), names.length < m →
      selectLoop m names ess = collectElems m names ess.flatten := by
  intro ess
  induction ess with
  | nil => intro names h; rfl
  | cons es rest ih =>
    intro names h
    simp only [selectLoop, List.flatten_cons]
    rw [collectElems_append m rest.flatten es names h]
    by_cases hq : m ≤ (collectElems m names es).length
    · rw [if_pos hq, if_pos hq]
    · rw [if_neg hq, if_neg hq]
      exact ih _ (Nat.lt_of_not_le hq)

/-! ### Claims about the fetcher -/

/-- Claim C7: when the required parsing capability is absent,
`fetch_best_sellers` fails with the dependency error having issued zero
network requests. -/
theorem fetch_best_sellers_dependency_guard (net : HttpResult) (maxItems : Nat) :
    fetch_best_sellers false net maxItems
      = (Except.error FetchError.dependencyError, 0) := rfl

/-- Claim C4, counterexample: the claim fails as stated for `max_items = 0`:
the break test runs only after an element has been processed, so one item is
still collected and the result exceeds the requested maximum. -/
theorem selectNames_zero_quota_overshoot :
    selectNames (fun _ => ["x"]) 0 = ["x"]
    ∧ ¬ ((selectNames (fun _ => ["x"]) 0).length ≤ 0) := by
  exact ⟨by decide, by decide⟩

/-- Claim C4 (amended): for every document and every requested maximum
`max_items ≥ 1`, the extraction returns at most `max_items` pairwise-distinct
non-empty texts, and equals the quota-limited first-occurrence collection over
the selector match lists concatenated in priority order (so the order is the
order of first appearance across the selector attempts).  The amendment
excludes only `max_items = 0`, where the counterexample shows one item can
still be returned. -/
theorem selectNames_spec (doc : String → List String) (m : Nat) (hm : 1 ≤ m) :
    (selectNames doc m).length ≤ m
    ∧ (selectNames doc m).Nodup
    ∧ (∀ s ∈ selectNames doc m, s ≠ "")
    ∧ selectNames doc m = collectElems m [] (selectors.map doc).flatten := by
  have h0 : ([] : List String).length < m := hm
  have hj : selectNames doc m = collectElems m [] (selectors.map doc).flatten :=
    selectLoop_eq_flatten m (selectors.map doc) [] h0
  refine ⟨?_, ?_, ?_, hj⟩
  · rw [hj]; exact collectElems_length m _ [] h0
  · rw [hj]; exact collectElems_nodup m _ [] List.nodup_nil
  · rw [hj]; exact collectElems_ne_empty m _ [] (by simp)

/-- Witness for C4: a document where only the second selector matches, with a
duplicate and an empty text among the matches. -/
theorem selectNames_spec_witness :
    (selectNames (fun s => if s = ("span.zg-text-center-align div.a-section a.a-link-normal")
        then ["B1", "B2", "B1", ""] else []) 3).length ≤ 3
    ∧ (selectNames (fun s => if s = ("span.zg-text-center-align div.a-section a.a-link-normal")
        then ["B1", "B2", "B1", ""] else []) 3).Nodup
    ∧ (∀ s ∈ selectNames (fun s => if s = ("span.zg-text-center-align div.a-section a.a-link-normal")
        then ["B1", "B2", "B1", ""] else []) 3, s ≠ "")
    ∧ selectNames (fun s => if s = ("span.zg-text-center-align div.a-section a.a-link-normal")
        then ["B1", "B2", "B1", ""] else []) 3
      = collectElems 3 []
          (selectors.map (fun s => if s = ("span.zg-text-center-align div.a-section a.a-link-normal")
            then ["B1", "B2", "B1", ""] else [])).flatten :=
  selectNames_spec (fun s => if s = ("span.zg-text-center-align div.a-section a.a-link-normal")
    then ["B1", "B2", "B1", ""] else []) 3 (by decide)

/-! ### Claim about the page renderer -/

/-- Claim C8: `generate_post_html` is a pure total function (so two calls with
identical arguments are byte-identical and no error can arise), its output
contains an `<h1>` element equal to the title, and it contains the search URL
built by joining the slug's hyphen-separated tokens with `+` followed by the
literal affiliate-tag placeholder query parameter. -/
theorem generate_post_html_contains (title date_str product_name slug : String) :
    generate_post_html title date_str product_name slug
      = generate_post_html title date_str product_name slug
    ∧ (∃ pre post : String, generate_post_html title date_str product_name slug
        = pre ++ ("<h1>" ++ title ++ "</h1>") ++ post)
    ∧ (∃ pre post : String, generate_post_html title date_str product_name slug
        = pre ++ ("https://www.amazon.com/s?k="
            ++ String.intercalate ("+") (slug.splitOn ("-"))
            ++ "&tag=YOUR_AFFILIATE_ID") ++ post) := by
  refine ⟨rfl,
    ⟨gph_a ++ title ++ gph_b,
     gph_c ++ date_str ++ gph_d ++ product_name ++ gph_e ++ product_name ++ gph_f
       ++ ("https://www.amazon.com/s?k=" ++ String.intercalate ("+") (slug.splitOn ("-"))
           ++ "&tag=YOUR_AFFILIATE_ID") ++ gph_g, ?_⟩,
    ⟨gph_a ++ title ++ gph_b ++ "<h1>" ++ title ++ "</h1>" ++ gph_c ++ date_str ++ gph_d
       ++ product_name ++ gph_e ++ product_name ++ gph_f, gph_g, ?_⟩⟩
  · simp only [generate_post_html, String.append_assoc]
  · simp only [generate_post_html, String.append_assoc]

/-! ### Helper lemmas: slugifier -/

theorem collapseAux_true_eq (l : List Char) :
    collapseAux true l = collapseAux false (l.dropWhile (fun d => !isSlugChar d)) := by
  induction l with
  | nil => rfl
  | cons c cs ih =>
    by_cases hc : isSlugChar c
    · rw [List.dropWhile_cons_of_neg (by simp [hc])]
      simp [collapseAux, hc]
    · rw [List.dropWhile_cons_of_pos (by simp [hc])]
      rw [← ih]
      simp [collapseAux, hc]

theorem collapseAux_eq_bounded : ∀ (n : Nat) (l : List Char), l.length ≤ n →
    collapseAux false l = collapseRuns l := by
  intro n
  induction n with
  | zero =>
    intro l h
    have hl : l = [] := List.length_eq_zero.mp (Nat.le_zero.mp h)
    subst hl
    simp [collapseAux, collapseRuns]
  | succ n ih =>
    intro l h
    cases l with
    | nil => simp [collapseAux, collapseRuns]
    | cons c cs =>
      by_cases hc : isSlugChar c
      · rw [show collapseRuns (c :: cs) = c :: collapseRuns cs from by
            simp [collapseRuns, hc]]
        rw [show collapseAux false (c :: cs) = c :: collapseAux false cs from by
            simp [collapseAux, hc]]
        rw [ih cs (by simpa using Nat.le_of_succ_le_succ h)]
      · rw [show collapseRuns (c :: cs)
            = '-' :: collapseRuns (cs.dropWhile (fun d => !isSlugChar d)) from by
            simp [collapseRuns, hc]]
        rw [show collapseAux false (c :: cs) = '-' :: collapseAux true cs from by
            simp [collapseAux, hc]]
        rw [collapseAux_true_eq]
        rw [ih _ (le_trans (List.Sublist.length_le (List.dropWhile_sublist _))
            (by simpa using Nat.le_of_succ_le_succ h))]

theorem collapseAux_eq_collapseRuns (l : List Char) :
    collapseAux false l = collapseRuns l :=
  collapseAux_eq_bounded l.length l (Nat.le_refl _)

/-! ### Claim C3: the slugify contract -/

/-- Claim C3: `slugify` lower-cases its input and replaces every maximal run of
characters outside `[a-z0-9]` by a single dash (`collapseRuns`, stated the way
the specification reads), then removes leading and trailing dashes; it is
total (no errors), maps the empty string to the empty string, and maps
`"Sample Product A!"` to `"sample-product-a"`. -/
theorem slugify_contract :
    (∀ s : String, slugify s = String.mk (pyStrip (collapseRuns (s.data.map Char.toLower))))
    ∧ slugify ("") = ""
    ∧ slugify ("Sample Product A!") = "sample-product-a" := by
  refine ⟨fun s => ?_, by decide, by decide⟩
  unfold slugify
  rw [collapseAux_eq_collapseRuns]

/-! ### Helper lemmas: slugify idempotence -/

/-- Adjacent output characters are never both dashes. -/
def dashSep (a b : Char) : Prop := ¬ (a = '-' ∧ b = '-')

theorem mem_collapseAux : ∀ (l : List Char) (b : Bool) (c : Char),
    c ∈ collapseAux b l → isSlugChar c = true ∨ c = '-' := by
  intro l
  induction l with
  | nil => intro b c h; cases h
  | cons a l ih =>
    intro b c h
    by_cases ha : isSlugChar a
    · rw [show collapseAux b (a :: l) = a :: collapseAux false l from by
          simp [collapseAux, ha]] at h
      rcases List.mem_cons.mp h with rfl | h
      · exact Or.inl ha
      · exact ih false c h
    · cases b with
      | true =>
        rw [show collapseAux true (a :: l) = collapseAux true l from by
            simp [collapseAux, ha]] at h
        exact ih true c h
      | false =>
        rw [show collapseAux false (a :: l) = '-' :: collapseAux true l from by
            simp [collapseAux, ha]] at h
        rcases List.mem_cons.mp h with rfl | h
        · exact Or.inr rfl
        · exact ih true c h

theorem mem_pyStrip (l : List Char) (c : Char) (h : c ∈ pyStrip l) : c ∈ l := by
  unfold pyStrip at h
  rw [List.mem_reverse] at h
  have h2 : c ∈ (l.dropWhile isDash).reverse := List.dropWhile_subset _ h
  rw [List.mem_reverse] at h2
  exact List.dropWhile_subset _ h2

theorem toLower_fixed (c : Char) (h : isSlugChar c = true ∨ c = '-') :
    c.toLower = c := by
  rcases h with h | rfl
  · simp only [isSlugChar, Bool.or_eq_true, Bool.and_eq_true, decide_eq_true_eq] at h
    have hn : ¬ (c.toNat ≥ 65 ∧ c.toNat ≤ 90) := by
      rcases h with ⟨h1, h2⟩ | ⟨h1, h2⟩ <;> omega
    simp only [Char.toLower]
    rw [if_neg hn]
  · decide

theorem map_toLower_id (l : List Char) (h : ∀ c ∈ l, isSlugChar c = true ∨ c = '-') :
    l.map Char.toLower = l := by
  induction l with
  | nil => rfl
  | cons a l ih =>
    simp only [List.map_cons]
    rw [toLower_fixed a (h a (List.mem_cons_self a l)),
      ih (fun c hc => h c (List.mem_cons_of_mem a hc))]

theorem chain_collapseAux : ∀ (l : List Char),
    List.Chain' dashSep (collapseAux false l)
    ∧ List.Chain' dashSep (collapseAux true l)
    ∧ (collapseAux true l).head? ≠ some ('-') := by
  intro l
  induction l with
  | nil => exact ⟨List.chain'_nil, List.chain'_nil, by simp [collapseAux]⟩
  | cons a l ih =>
    obtain ⟨ihf, iht, ihh⟩ := ih
    by_cases ha : isSlugChar a
    · have hne : a ≠ '-' := by
        intro he; rw [he] at ha; exact absurd ha (by decide)
      have hstep : ∀ b : Bool, collapseAux b (a :: l) = a :: collapseAux false l := by
        intro b; simp [collapseAux, ha]
      have hch : List.Chain' dashSep (a :: collapseAux false l) := by
        rw [List.chain'_cons']
        exact ⟨fun y _ hc => hne hc.1, ihf⟩
      refine ⟨by rw [hstep]; exact hch, by rw [hstep]; exact hch, ?_⟩
      rw [hstep]
      simp [hne]
    · have hf : collapseAux false (a :: l) = '-' :: collapseAux true l := by
        simp [collapseAux, ha]
      have ht : collapseAux true (a :: l) = collapseAux true l := by
        simp [collapseAux, ha]
      refine ⟨?_, by rw [ht]; exact iht, by rw [ht]; exact ihh⟩
      rw [hf, List.chain'_cons']
      refine ⟨?_, iht⟩
      intro y hy hc
      have hhy : (collapseAux true l).head? = some y := hy
      rw [hc.2] at hhy
      exact ihh hhy

theorem chain_dropWhile {R : Char → Char → Prop} (p : Char → Bool) :
    ∀ (l : List Char), List.Chain' R l → List.Chain' R (l.dropWhile p) := by
  intro l
  induction l with
  | nil => intro h; exact h
  | cons a l ih =>
    intro h
    by_cases hp : p a
    · rw [List.dropWhile_cons_of_pos hp]
      exact ih h.tail
    · rw [List.dropWhile_cons_of_neg hp]
      exact h

theorem chain_reverse_dashSep (l : List Char) (h : List.Chain' dashSep l) :
    List.Chain' dashSep l.reverse := by
  rw [List.chain'_reverse]
  exact h.imp (fun a b hab hc => hab ⟨hc.2, hc.1⟩)

theorem chain_pyStrip (l : List Char) (h : List.Chain' dashSep l) :
    List.Chain' dashSep (pyStrip l) := by
  unfold pyStrip
  exact chain_reverse_dashSep _ (chain_dropWhile _ _ (chain_reverse_dashSep _ (chain_dropWhile _ _ h)))

theorem collapseAux_fixed : ∀ (l : List Char),
    (∀ c ∈ l, isSlugChar c = true ∨ c = '-') → List.Chain' dashSep l →
    collapseAux false l = l ∧ (l.head? ≠ some ('-') → collapseAux true l = l) := by
  intro l
  induction l with
  | nil => exact fun _ _ => ⟨rfl, fun _ => rfl⟩
  | cons a l ih =>
    intro hmem hch
    have hmem2 : ∀ c ∈ l, isSlugChar c = true ∨ c = '-' :=
      fun c hc => hmem c (List.mem_cons_of_mem a hc)
    obtain ⟨ihf, iht⟩ := ih hmem2 hch.tail
    by_cases ha : isSlugChar a
    · constructor
      · rw [show collapseAux false (a :: l) = a :: collapseAux false l from by
            simp [collapseAux, ha], ihf]
      · intro _
        rw [show collapseAux true (a :: l) = a :: collapseAux false l from by
            simp [collapseAux, ha], ihf]
    · have ha2 : a = '-' := by
        rcases hmem a (List.mem_cons_self a l) with h | h
        · exact absurd h ha
        · exact h
      subst ha2
      have hhead : l.head? ≠ some ('-') := by
        intro hh
        exact (List.chain'_cons'.mp hch).1 ('-') (Option.mem_def.mpr hh) ⟨rfl, rfl⟩
      constructor
      · rw [show collapseAux false ('-' :: l) = '-' :: collapseAux true l from by
            simp [collapseAux, ha], iht hhead]
      · intro hcontra
        exact absurd rfl hcontra

theorem dropWhile_head_false (p : Char → Bool) :
    ∀ (l : List Char) (c : Char), (l.dropWhile p).head? = some c → p c = false := by
  intro l
  induction l with
  | nil => intro c h; cases h
  | cons a l ih =>
    intro c h
    by_cases hp : p a
    · rw [List.dropWhile_cons_of_pos hp] at h
      exact ih c h
    · rw [List.dropWhile_cons_of_neg hp] at h
      rw [List.head?_cons] at h
      obtain rfl : a = c := by injection h
      exact (Bool.not_eq_true _) ▸ hp

theorem dropWhile_eq_self_of_head (p : Char → Bool) (l : List Char)
    (h : ∀ c, l.head? = some c → p c = false) : l.dropWhile p = l := by
  cases l with
  | nil => rfl
  | cons a l =>
    rw [List.dropWhile_cons_of_neg]
    simp [h a rfl]

theorem pyStrip_idem (l : List Char) : pyStrip (pyStrip l) = pyStrip l := by
  unfold pyStrip
  set A := l.dropWhile isDash with hA
  set B := A.reverse.dropWhile isDash with hB
  have h1 : B.reverse.dropWhile isDash = B.reverse := by
    apply dropWhile_eq_self_of_head
    intro c hc
    rw [List.head?_reverse] at hc
    obtain ⟨t, ht⟩ := List.dropWhile_suffix (l := A.reverse) isDash
    have h3 : A.reverse.getLast? = some c := by
      rw [← hB] at ht
      rw [← ht, List.getLast?_append, hc]
      rfl
    rw [List.getLast?_reverse] at h3
    exact dropWhile_head_false isDash l c h3
  rw [h1, List.reverse_reverse]
  congr 1
  apply dropWhile_eq_self_of_head
  intro c hc
  exact dropWhile_head_false isDash A.reverse c hc

/-! ### Claim C9: slugify idempotence -/

/-- Claim C9: `slugify` is idempotent — its output consists of lowercase
alphanumerics and single interior dashes with none at either end, and such a
string is a fixed point of `slugify`. -/
theorem slugify_idempotent (s : String) : slugify (slugify s) = slugify s := by
  have hmemk : ∀ c ∈ collapseAux false (s.data.map Char.toLower),
      isSlugChar c = true ∨ c = '-' :=
    fun c hc => mem_collapseAux _ false c hc
  have hmemm : ∀ c ∈ pyStrip (collapseAux false (s.data.map Char.toLower)),
      isSlugChar c = true ∨ c = '-' :=
    fun c hc => hmemk c (mem_pyStrip _ c hc)
  have hchm : List.Chain' dashSep (pyStrip (collapseAux false (s.data.map Char.toLower))) :=
    chain_pyStrip _ (chain_collapseAux _).1
  show String.mk (pyStrip (collapseAux false
      ((String.mk (pyStrip (collapseAux false (s.data.map Char.toLower)))).data.map Char.toLower)))
    = String.mk (pyStrip (collapseAux false (s.data.map Char.toLower)))
  congr 1
  rw [show (String.mk (pyStrip (collapseAux false (s.data.map Char.toLower)))).data
      = pyStrip (collapseAux false (s.data.map Char.toLower)) from rfl]
  rw [map_toLower_id _ hmemm]
  rw [(collapseAux_fixed _ hmemm hchm).1]
  exact pyStrip_idem _
